import Mathlib

/-!
Verification development for the `ask_brandon` repository: a shallow
embedding of its pipeline runtime, BSP graph engine, and in-memory
link-graph store, with theorems settling the behavioural claims made
about them.

Go `interface\x7b\x7d` values are modelled by a type parameter `U`,
Go maps by association lists, Go errors by the inductive `GoErr`
(`none : Option GoErr` is Go's `nil` error), and `xerrors.Errorf`
wrapping with `%w` by the `GoErr.errorf` constructor.
-/

/-- Go errors occurring in the repository.  `errorf s e` is
`xerrors.Errorf(s + ": %w", e)`; `named s` is `xerrors.New(s)`. -/
inductive GoErr : Type where
  | destinationIsLocal
  | invalidMessageDestination
  | unknownEdgeSource
  | named (s : String)
  | errorf (s : String) (wrapped : GoErr)
deriving DecidableEq

/-- Model of `xerrors.Is`: the target equals the error or appears in its wrap chain. -/
def GoErr.isErr : GoErr → GoErr → Bool
  | .errorf s w, target => decide (GoErr.errorf s w = target) || GoErr.isErr w target
  | e, target => decide (e = target)

/-- Model of `xerrors.Is` applied to a possibly-nil Go error (it is false on `nil`). -/
def optErrIs (e : Option GoErr) (target : GoErr) : Bool :=
  match e with
  | none => false
  | some e => e.isErr target

/-! ## BSP graph model  (src/unnamed/part_001, package bspgraph)

`BspVertex`/`BspEdge`/`BspGraph` mirror the Go structs `Vertex`, `Edge`
and `Graph`.  The two-element array `msgQueue [2]message.Queue` is the
pair of fields `q0`/`q1`, each a `List U` following the reference
in-memory queue (a growable slice of messages; `Enqueue` appends and
always returns a nil error).  The fields of `Graph` used for worker
coordination (channels, wait group, atomic counters) have no shallow
counterpart; the per-vertex logic of `stepWorker` is modelled by
`stepWorkerVertex` below. -/

structure BspEdge (U : Type) where
  value : U
  dstID : String
deriving DecidableEq

structure BspVertex (U : Type) where
  id : String
  value : U
  active : Bool
  q0 : List U
  q1 : List U
  edges : List (BspEdge U)
deriving DecidableEq

/-- Read `v.msgQueue[i]` for `i` already reduced mod 2. -/
def BspVertex.queue (v : BspVertex U) (i : Nat) : List U :=
  if i = 0 then v.q0 else v.q1

/-- Replace `v.msgQueue[i]` wholesale. -/
def BspVertex.setQueue (v : BspVertex U) (i : Nat) (q : List U) : BspVertex U :=
  if i = 0 then { v with q0 := q } else { v with q1 := q }

/-- The Go `Graph` struct: superstep counter, vertex map, aggregator map
and the optional relayer.  A relayer is a function `Relay(dst, msg)`
returning a possibly-nil error; an aggregator object is opaque (`A`). -/
structure BspGraph (U A : Type) where
  superstep : Nat
  vertices : List (String × BspVertex U)
  aggregators : List (String × A)
  relayer : Option (String → U → Option GoErr)

/-- Update the vertex stored under `id` (Go mutates it through the map's pointer). -/
def updateVertex (vs : List (String × BspVertex U)) (id : String)
    (v : BspVertex U) : List (String × BspVertex U) :=
  vs.map (fun p => if p.1 = id then (p.1, v) else p)

/-- The buffer index read by `Graph.stepWorker` at a given superstep
(`buffer := g.superstep % 2`). -/
def stepReadBuffer (s : Nat) : Nat := s % 2

/-- The buffer index written by `Graph.SendMessage` at a given superstep
(`queueIndex := (g.superstep + 1) % 2`). -/
def sendWriteBuffer (s : Nat) : Nat := (s + 1) % 2

/-- Model of `Graph.SendMessage(dstID, msg)`: if `dstID` is local, enqueue onto the
`(superstep+1) % 2` queue (the in-memory queue's `Enqueue` returns nil);
otherwise consult the relayer, returning its result unless it `Is`
`ErrDestinationIsLocal`; otherwise fail wrapping
`ErrInvalidMessageDestination`. -/
def BspGraph.sendMessage (g : BspGraph U A) (dstID : String) (msg : U) :
    BspGraph U A × Option GoErr :=
  match g.vertices.lookup dstID with
  | some dstVert =>
      let queueIndex := sendWriteBuffer g.superstep
      let enqueued := dstVert.setQueue queueIndex (dstVert.queue queueIndex ++ [msg])
      ({ g with vertices := updateVertex g.vertices dstID enqueued }, none)
  | none =>
      match g.relayer with
      | some relay =>
          let err := relay dstID msg
          if optErrIs err GoErr.destinationIsLocal then
            (g, some (GoErr.errorf ("message cannot be delivered to " ++ dstID)
                GoErr.invalidMessageDestination))
          else
            (g, err)
      | none =>
          (g, some (GoErr.errorf ("message cannot be delivered to " ++ dstID)
              GoErr.invalidMessageDestination))

/-- The body of `Graph.stepWorker` for one received vertex.  `compute`
abstracts the configured `ComputeFunc`'s effect on the vertex (value
updates, `Freeze`, message consumption through the iterator).  The
returned flag records whether the vertex was executed, i.e. whether
`activeInStep` was incremented for it.  On success the read buffer is
discarded (`DiscardMessages` truncates it to empty). -/
def stepWorkerVertex (superstep : Nat) (compute : BspVertex U → BspVertex U)
    (v : BspVertex U) : BspVertex U × Bool :=
  let buffer := stepReadBuffer superstep
  if v.active || !(v.queue buffer).isEmpty then
    let v1 := compute { v with active := true }
    (v1.setQueue buffer [], true)
  else
    (v, false)

/-- All vertices of one superstep: the resulting vertices plus the
`activeInStep` total accumulated by the worker pool. -/
def stepAllVertices (superstep : Nat) (compute : BspVertex U → BspVertex U)
    (vs : List (BspVertex U)) : List (BspVertex U) × Nat :=
  vs.foldr
    (fun v acc =>
      let r := stepWorkerVertex superstep compute v
      (r.1 :: acc.1, if r.2 then acc.2 + 1 else acc.2))
    ([], 0)

/-! ## Executor model  (src/pipeline/pipeline.go, package bspgraph)

`Executor.run(ctx, maxSteps)` drives a `for` loop whose body checks, in
order: context expiry, `PreStep`, `g.step()`, `PostStep`,
`PostStepKeepRunning`.  The environment abstracts what each of those
observes at a given superstep number (the superstep number determines
the iteration, since the loop's post-statement increments it by exactly
one per completed iteration). -/

structure ExecEnv where
  /-- whether `ctx.Done()` is already closed when iteration `s` starts. -/
  ctxDone : Nat → Bool
  /-- Value of `ctx.Err()` once the context has expired. -/
  ctxErr : GoErr
  /-- result of `cb.PreStep` at superstep `s`. -/
  preStep : Nat → Option GoErr
  /-- The `activeInStep` returned by `g.step()` at superstep `s`. -/
  stepActive : Nat → Nat
  /-- error returned by `g.step()` at superstep `s`. -/
  stepErr : Nat → Option GoErr
  /-- result of `cb.PostStep` at superstep `s` given `activeInStep`. -/
  postStep : Nat → Nat → Option GoErr
  /-- result of `cb.PostStepKeepRunning` at superstep `s` given `activeInStep`. -/
  keepRunning : Nat → Nat → Bool × Option GoErr

/-- Model of `Executor.run`: the loop body exactly as in the source, with the
remaining `maxSteps` budget as fuel (`RunSteps(ctx, n)` calls it with
`n`).  Returns the final superstep counter, the returned error, and the
number of `g.step()` calls performed. -/
def execRun (env : ExecEnv) : Nat → Nat → Nat × Option GoErr × Nat
  | s, 0 => (s, none, 0)
  | s, Nat.succ k =>
      if env.ctxDone s then (s, some env.ctxErr, 0)
      else
        match env.preStep s with
        | some e => (s, some e, 0)
        | none =>
            match env.stepErr s with
            | some e => (s, some e, 1)
            | none =>
                let activeInStep := env.stepActive s
                match env.postStep s activeInStep with
                | some e => (s, some e, 1)
                | none =>
                    match env.keepRunning s activeInStep with
                    | (_, some e) => (s, some e, 1)
                    | (false, none) => (s, none, 1)
                    | (true, none) =>
                        let r := execRun env (s + 1) k
                        (r.1, r.2.1, r.2.2 + 1)

/-- The claim's enumeration of terminal conditions, checked in the
source's order at one superstep: `none` means the iteration completed
and the loop continues; `some e` means the loop breaks returning `e`
(which is `none` exactly for `PostStepKeepRunning` returning false). -/
def iterOutcome (env : ExecEnv) (s : Nat) : Option (Option GoErr) :=
  if env.ctxDone s then some (some env.ctxErr)
  else
    match env.preStep s with
    | some e => some (some e)
    | none =>
        match env.stepErr s with
        | some e => some (some e)
        | none =>
            match env.postStep s (env.stepActive s) with
            | some e => some (some e)
            | none =>
                match env.keepRunning s (env.stepActive s) with
                | (_, some e) => some (some e)
                | (false, none) => some none
                | (true, none) => none

/-! ## NewExecutor  (src/pipeline/pipeline.go, package bspgraph)

`NewExecutor(g, cb)` patches the absent callbacks (touching only `cb`)
and sets `g.superstep = 0` before wrapping the graph.  Callbacks are
opaque here (`C`). -/

structure ExecutorM (U A C : Type) where
  g : BspGraph U A
  cb : C

/-- Model of `NewExecutor`: zero the wrapped graph's superstep counter and store
the graph and callbacks.  (`patchEmptyCallbacks` substitutes no-op
defaults inside `cb` and reads nothing from `g`.) -/
def newExecutor (g : BspGraph U A) (cb : C) : ExecutorM U A C :=
  { g := { g with superstep := 0 }, cb := cb }

/-! ## In-memory link graph store  (src/pipeline/pipeline.go part,
src/unnamed/part_000 and part_001, packages graph and memory)

UUIDs are compared through their string form in the source
(`uuid.String()` with `>=`/`<`), so they are modelled directly as
strings; `time.Time` is a `Nat` with `Before` as `<`.  Go's `<` on
strings is byte-wise lexicographic; UUID strings are ASCII, so the
character-wise `goStrLt` below agrees with it. -/

def goCharsLt : List Char → List Char → Bool
  | [], [] => false
  | [], _ :: _ => true
  | _ :: _, [] => false
  | a :: as, b :: bs =>
      if a.toNat < b.toNat then true
      else if b.toNat < a.toNat then false
      else goCharsLt as bs

/-- Go's `a < b` on strings. -/
def goStrLt (a b : String) : Bool := goCharsLt a.data b.data

/-- Go's `a <= b` on strings (total order, so `a <= b = !(b < a)`). -/
def goStrLe (a b : String) : Bool := !(goStrLt b a)

structure LinkM where
  id : String
  url : String
  retrievedAt : Nat
deriving DecidableEq

structure EdgeM where
  id : String
  src : String
  dst : String
  updatedAt : Nat
deriving DecidableEq

/-- The maps inside `InMemoryGraph` that `Edges` reads: `links` (given as
the key list, in iteration order), `edges`, and `linkEdgeMap`. -/
structure StoreM where
  links : List LinkM
  edges : List (String × EdgeM)
  linkEdgeMap : List (String × List String)
deriving DecidableEq

def StoreM.edgesOf (s : StoreM) (linkID : String) : List String :=
  (s.linkEdgeMap.lookup linkID).getD []

def StoreM.findEdge (s : StoreM) (edgeID : String) : Option EdgeM :=
  s.edges.lookup edgeID

/-- Model of `InMemoryGraph.Edges(fromID, toID, updatedBefore)` as written: links
whose id satisfies `id >= from && id < to` are skipped (`continue`), and
the edges of the remaining links are collected when
`edge.UpdatedAt.Before(updatedBefore)`. -/
def StoreM.edgesGo (s : StoreM) (fromID toID : String) (updatedBefore : Nat) :
    List EdgeM :=
  s.links.foldr
    (fun l acc =>
      if goStrLe fromID l.id && goStrLt l.id toID then acc
      else
        ((s.edgesOf l.id).filterMap
          (fun edgeID =>
            match s.findEdge edgeID with
            | some e => if e.updatedAt < updatedBefore then some e else none
            | none => none)) ++ acc)
    []

/-- Modelled from the spec: `Edges` as specified — "edges whose src falls
in `[from, to)`" — i.e. keep exactly the links inside the partition and
collect their sufficiently-old edges. -/
def StoreM.edgesSpec (s : StoreM) (fromID toID : String) (updatedBefore : Nat) :
    List EdgeM :=
  s.links.foldr
    (fun l acc =>
      if goStrLe fromID l.id && goStrLt l.id toID then
        ((s.edgesOf l.id).filterMap
          (fun edgeID =>
            match s.findEdge edgeID with
            | some e => if e.updatedAt < updatedBefore then some e else none
            | none => none)) ++ acc
      else acc)
    []

/-! ## In-memory store iterators  (src/unnamed/part_001 `linkIterator`,
src/unnamed/part_000 `edgeIterator`)

Both iterators carry a backing slice and a `currentIndex`; their `Next`
methods are textually identical (`if currentIndex < len-1 { currentIndex++;
return true }`), and `Link()`/`Edge()` return element `currentIndex-1`.
One generic model covers both. -/

structure MemIterator (α : Type) where
  list : List α
  currentIndex : Nat

/-- Model of `linkIterator.Next` and `edgeIterator.Next`.  The Go comparison is over
signed ints, hence the cast (for an empty slice `len-1` is `-1`). -/
def MemIterator.next (it : MemIterator α) : Bool × MemIterator α :=
  if (it.currentIndex : Int) < (it.list.length : Int) - 1 then
    (true, { it with currentIndex := it.currentIndex + 1 })
  else
    (false, it)

/-- Model of `linkIterator.Link` and `edgeIterator.Edge`: the element at
`currentIndex - 1` (an out-of-bounds access would panic in Go). -/
def MemIterator.item (it : MemIterator α) : Option α :=
  it.list.get? (it.currentIndex - 1)

/-- Drive the iterator like a Go `for it.Next() { use it.Link() }` loop
(with fuel): the items yielded and how many times `Next` returned true. -/
def MemIterator.collect : MemIterator α → Nat → List α × Nat
  | _, 0 => ([], 0)
  | it, Nat.succ fuel =>
      let r := it.next
      if r.1 then
        let rest := r.2.collect fuel
        match r.2.item with
        | some x => (x :: rest.1, rest.2 + 1)
        | none => (rest.1, rest.2 + 1)
      else
        ([], 0)

/-! ## Pipeline runtime  (src/pipeline/pipeline.go, src/unnamed/part_002,
package pipeline)

Payloads are identified by their object identity, modelled as a `Nat`.
A processor's call on one payload either fails, discards
(`nil, nil` in Go), or forwards some payload object (possibly a different
one — `Processor` explicitly "returns back a new payload").  The
sequential model below tracks, for a pipeline of FIFO stages, a source
emitting distinct payload objects, and a sink, the `MarkAsProcessed`
calls the runtime makes. -/

/-- Outcome of one `Processor.Process` call in `fifo.Run`. -/
inductive ProcRes : Type where
  | err
  | discard
  | fwd (q : Nat)
deriving DecidableEq

/-- Result of pushing one payload through the chain of FIFO stages. -/
inductive StageOut : Type where
  | reached (q : Nat)
  | discarded (markedID : Nat)
  | errored
deriving DecidableEq

/-- One payload through the FIFO stages in order (`fifo.Run`): a processor
error drops the in-flight payload unmarked and aborts; a nil output marks
the stage's *input* payload (`payloadIn.MarkAsProcessed()`); otherwise the
processor's output is forwarded to the next stage. -/
def runStages : List (Nat → ProcRes) → Nat → StageOut
  | [], p => .reached p
  | proc :: rest, p =>
      match proc p with
      | .err => .errored
      | .discard => .discarded p
      | .fwd q => runStages rest q

/-- Model of `Pipeline.Process` with FIFO stages, run sequentially payload by
payload: returns the payloads that entered stage channel 0 and the
`MarkAsProcessed` calls made (`sinkWorker` marks only after a successful
`Consume`; a stage or sink error shuts the pipeline down, so later source
payloads never enter). -/
def pipelineRun (procs : List (Nat → ProcRes)) (sinkOk : Nat → Bool) :
    List Nat → List Nat × List Nat
  | [] => ([], [])
  | p :: ps =>
      match runStages procs p with
      | .errored => ([p], [])
      | .discarded q =>
          let r := pipelineRun procs sinkOk ps
          (p :: r.1, q :: r.2)
      | .reached q =>
          if sinkOk q then
            let r := pipelineRun procs sinkOk ps
            (p :: r.1, q :: r.2)
          else
            ([p], [])

/-! ## fixedWorkerPool.Run  (src/unnamed/part_002)

The synchronization structure of `Run`: the `sync.WaitGroup` operations
it executes itself, in program order, before calling `wg.Wait()`.  For
each worker the loop runs `wg.Add(1)`, spawns the goroutine, and then —
still in the loop, not in the goroutine — `wg.Done()`. -/

inductive WgOp : Type where
  | add (n : Nat)
  | done
deriving DecidableEq

def wgDelta : WgOp → Int
  | .add n => (n : Int)
  | .done => -1

/-- The WaitGroup counter after a list of operations. -/
def wgCounter (ops : List WgOp) : Int :=
  (ops.map wgDelta).sum

/-- The WaitGroup operations `fixedWorkerPool.Run` itself performs before
reaching `wg.Wait()` (none of them inside a spawned worker). -/
def fixedPoolPreWaitOps (numWorkers : Nat) : List WgOp :=
  (List.range numWorkers).flatMap (fun _ => [WgOp.add 1, WgOp.done])

/-! ## broadcast.Run dispatch  (src/unnamed/part_002)

For each input payload the loop walks `i` from `len(fifos)-1` down to
`0`, sending the original payload to FIFO 0 and `payload.Clone()` to
every other FIFO.  Object identities are `Nat`s; a clone gets the next
unused identity, so the counter `fresh` stands for "identity never seen
before", advancing by one per `Clone()` call. -/

def broadcastDispatchAux : Nat → Nat → Nat → List (Nat × Nat)
  | 0, p, _ => [(0, p)]
  | Nat.succ i, p, fresh => (i + 1, fresh) :: broadcastDispatchAux i p (fresh + 1)

/-- The list of `(fifo index, payload identity)` sends the dispatch loop
performs for one input payload `p` over `k` inner FIFOs.  An entry with
index `0` carries the original; every other entry was produced by one
`Clone()` call. -/
def broadcastDispatch (k p fresh : Nat) : List (Nat × Nat) :=
  if k = 0 then [] else broadcastDispatchAux (k - 1) p fresh

/-! ## Helper lemmas -/

theorem queue_setQueue_self (v : BspVertex U) (i : Nat) (q : List U) :
    (v.setQueue i q).queue i = q := by
  by_cases h : i = 0 <;> simp [BspVertex.setQueue, BspVertex.queue, h]

theorem read_write_buffer_ne (s : Nat) : stepReadBuffer s ≠ sendWriteBuffer s := by
  simp only [stepReadBuffer, sendWriteBuffer]
  omega

theorem queue_setQueue_read_of_write (v : BspVertex U) (s : Nat) (q : List U) :
    (v.setQueue (sendWriteBuffer s) q).queue (stepReadBuffer s)
      = v.queue (stepReadBuffer s) := by
  rcases Nat.mod_two_eq_zero_or_one s with h | h
  · have hr : stepReadBuffer s = 0 := h
    have hw : sendWriteBuffer s = 1 := by simp only [sendWriteBuffer]; omega
    simp [hr, hw, BspVertex.setQueue, BspVertex.queue]
  · have hr : stepReadBuffer s = 1 := h
    have hw : sendWriteBuffer s = 0 := by simp only [sendWriteBuffer]; omega
    simp [hr, hw, BspVertex.setQueue, BspVertex.queue]

theorem lookup_updateVertex (vs : List (String × BspVertex U)) (id id' : String)
    (v : BspVertex U) :
    (updateVertex vs id v).lookup id'
      = (vs.lookup id').map (fun w => if id' = id then v else w) := by
  induction vs with
  | nil => rfl
  | cons p rest ih =>
      obtain ⟨k, w⟩ := p
      by_cases hk : k = id <;> by_cases h' : id' = k
      · simp [updateVertex, List.lookup_cons, hk, h', beq_iff_eq, ih]
      · have hb : (id' == id) = false := by
          rw [beq_eq_false_iff_ne]
          rw [hk] at h'
          exact h'
        simp only [updateVertex] at ih
        simp [updateVertex, List.lookup_cons, hk, hb, ih]
      · simp [updateVertex, List.lookup_cons, hk, h', beq_iff_eq, ih]
      · have hb : (id' == k) = false := by
          rw [beq_eq_false_iff_ne]
          exact h'
        simp only [updateVertex] at ih
        simp [updateVertex, List.lookup_cons, hk, hb, ih]

theorem wgCounter_append (l1 l2 : List WgOp) :
    wgCounter (l1 ++ l2) = wgCounter l1 + wgCounter l2 := by
  simp [wgCounter]

/-! ## Claim theorems -/

/-- C10: `NewExecutor(g, cb)` sets the wrapped graph's superstep counter
to 0 and changes nothing else in the graph — vertices (with their edges
and both message queues, pending messages included), aggregators and the
relayer are exactly as they were — and stores the callbacks. -/
theorem newExecutor_resets_superstep_only (g : BspGraph U A) (cb : C) :
    (newExecutor g cb).g.superstep = 0 ∧
    (newExecutor g cb).g.vertices = g.vertices ∧
    (newExecutor g cb).g.aggregators = g.aggregators ∧
    (newExecutor g cb).g.relayer = g.relayer ∧
    (newExecutor g cb).cb = cb :=
  ⟨rfl, rfl, rfl, rfl, rfl⟩

/-- C2: the claim that `fixedWorkerPool.Run` blocks until all N workers
return is violated by the code: because `wg.Done()` runs in the spawn
loop itself (not in the spawned goroutine), the WaitGroup counter is
already 0 when `wg.Wait()` executes, for every N — so `Run` proceeds past
the wait without a single worker having exited. -/
theorem fixedWorkerPool_wait_unblocked_before_workers_exit (n : Nat) :
    wgCounter (fixedPoolPreWaitOps n) = 0 := by
  induction n with
  | zero => rfl
  | succ k ih =>
      rw [fixedPoolPreWaitOps, List.range_succ, List.flatMap_append] at *
      rw [wgCounter_append, ih]
      rfl

/-- Concrete store for C8: link "a" lies inside the partition
`["a", "b")` and owns edge e1; link "z" lies outside it and owns e2. -/
def storeC8 : StoreM :=
  { links := [⟨"a", "urlA", 0⟩, ⟨"z", "urlZ", 0⟩],
    edges := [("e1", ⟨"e1", "a", "z", 0⟩), ("e2", ⟨"e2", "z", "a", 0⟩)],
    linkEdgeMap := [("a", ["e1"]), ("z", ["e2"])] }

/-- C8: `InMemoryGraph.Edges` skips the links *inside* `[from, to)` and
returns the edges of links *outside* it — the opposite of the specified
partition semantics (`edgesSpec`, which yields e1, the edge owned by the
in-range link). -/
theorem inMemoryGraph_edges_skips_matching_partition :
    storeC8.edgesGo ("a") ("b") 5 = [⟨"e2", "z", "a", 0⟩] ∧
    storeC8.edgesSpec ("a") ("b") 5 = [⟨"e1", "a", "z", 0⟩] := by
  decide

/-- C3: during superstep `s`, `SendMessage` to a locally-resolved
destination appends the message to that vertex's `(s+1) mod 2` queue and
leaves every vertex's `s mod 2` queue — the only queue the step-`s`
workers consume — untouched; the buffer written at step `s` is exactly
the buffer read at step `s+1` and differs from the one read at step `s`,
so the message is invisible during `s` and readable at `s+1`. -/
theorem sendMessage_double_buffering (g : BspGraph U A) (dstID : String)
    (msg : U) (dv : BspVertex U) (h : g.vertices.lookup dstID = some dv) :
    (∀ id, (((g.sendMessage dstID msg).1.vertices.lookup id).map
        (fun v => v.queue (stepReadBuffer g.superstep)))
      = ((g.vertices.lookup id).map
        (fun v => v.queue (stepReadBuffer g.superstep)))) ∧
    (((g.sendMessage dstID msg).1.vertices.lookup dstID).map
        (fun v => v.queue (sendWriteBuffer g.superstep)))
      = some (dv.queue (sendWriteBuffer g.superstep) ++ [msg]) ∧
    stepReadBuffer (g.superstep + 1) = sendWriteBuffer g.superstep ∧
    stepReadBuffer g.superstep ≠ sendWriteBuffer g.superstep ∧
    (g.sendMessage dstID msg).1.superstep = g.superstep ∧
    (g.sendMessage dstID msg).2 = none := by
  refine ⟨?_, ?_, rfl, read_write_buffer_ne g.superstep, ?_, ?_⟩
  · intro id
    simp only [BspGraph.sendMessage, h]
    rw [lookup_updateVertex]
    cases hl : g.vertices.lookup id with
    | none => rfl
    | some w =>
        by_cases hid : id = dstID
        · subst hid
          rw [hl] at h
          cases h
          simp [queue_setQueue_read_of_write]
        · simp [hid]
  · simp only [BspGraph.sendMessage, h]
    rw [lookup_updateVertex, h]
    simp [queue_setQueue_self]
  · simp [BspGraph.sendMessage, h]
  · simp [BspGraph.sendMessage, h]

/-- Concrete two-vertex graph for the C3 witness: vertex "B" has one
step-0 pending message `7` and empty next-step queue. -/
def gC3 : BspGraph Nat Nat :=
  { superstep := 0,
    vertices := [("A", ⟨"A", 0, true, [], [], []⟩), ("B", ⟨"B", 0, false, [7], [], []⟩)],
    aggregators := [],
    relayer := none }

/-- C3 witness: sending `9` to local vertex "B" at superstep 0 leaves its
step-0 read queue at `[7]` and makes its step-1 read queue `[9]`. -/
theorem sendMessage_double_buffering_witness :
    (((gC3.sendMessage ("B") 9).1.vertices.lookup ("B")).map
        (fun v => v.queue (stepReadBuffer 0))) = some [7] ∧
    (((gC3.sendMessage ("B") 9).1.vertices.lookup ("B")).map
        (fun v => v.queue (sendWriteBuffer 0))) = some [9] := by
  have h := sendMessage_double_buffering gC3 ("B") 9 ⟨"B", 0, false, [7], [], []⟩ (by decide)
  exact ⟨(h.1 ("B")).trans (by decide), h.2.1.trans (by decide)⟩

theorem stepWorkerVertex_snd (s : Nat) (compute : BspVertex U → BspVertex U)
    (v : BspVertex U) :
    (stepWorkerVertex s compute v).2
      = (v.active || !(v.queue (stepReadBuffer s)).isEmpty) := by
  simp only [stepWorkerVertex]
  by_cases hc : v.active || !(v.queue (stepReadBuffer s)).isEmpty <;> simp [hc]

/-- C4: a vertex is executed (compute invoked, counted in `activeInStep`)
iff its active flag was set entering the step or its current-step queue
has a pending message; an executed vertex has its flag set to true before
compute runs (and its read buffer discarded afterwards); a vertex that
was inactive with no inbound message is untouched — in particular it
stays inactive; and the step's active count is exactly the number of
vertices satisfying the condition. -/
theorem stepWorker_runs_iff_active_or_pending (s : Nat)
    (compute : BspVertex U → BspVertex U) (v : BspVertex U)
    (vs : List (BspVertex U)) :
    ((stepWorkerVertex s compute v).2 = true ↔
      (v.active = true ∨ v.queue (stepReadBuffer s) ≠ [])) ∧
    ((stepWorkerVertex s compute v).2 = true →
      (stepWorkerVertex s compute v).1
        = (compute { v with active := true }).setQueue (stepReadBuffer s) []) ∧
    ((stepWorkerVertex s compute v).2 = false →
      (stepWorkerVertex s compute v).1 = v ∧ v.active = false) ∧
    (stepAllVertices s compute vs).2
      = vs.countP (fun w => w.active || !(w.queue (stepReadBuffer s)).isEmpty) := by
  refine ⟨?_, ?_, ?_, ?_⟩
  · rw [stepWorkerVertex_snd]
    simp [List.isEmpty_iff]
  · intro ht
    rw [stepWorkerVertex_snd] at ht
    simp only [stepWorkerVertex, ht]
    rfl
  · intro hf
    rw [stepWorkerVertex_snd] at hf
    simp only [stepWorkerVertex, hf]
    constructor
    · simp [hf]
    · rcases Bool.or_eq_false_iff.mp hf with ⟨ha, _⟩
      exact ha
  · induction vs with
    | nil => rfl
    | cons w ws ih =>
        simp only [stepAllVertices, List.foldr_cons, List.countP_cons] at ih ⊢
        rw [stepWorkerVertex_snd]
        by_cases hw : w.active || !(w.queue (stepReadBuffer s)).isEmpty <;>
          simp [hw, ih, stepAllVertices]

/-- C4 witness: at superstep 0, an inactive vertex whose only pending
message sits in the step-1 queue is not executed and remains inactive. -/
theorem stepWorker_runs_iff_active_or_pending_witness :
    (stepWorkerVertex 0 (fun v => v)
        (⟨"B", 0, false, [], [5], []⟩ : BspVertex Nat)).1
      = ⟨"B", 0, false, [], [5], []⟩ ∧
    (⟨"B", 0, false, [], [5], []⟩ : BspVertex Nat).active = false :=
  (stepWorker_runs_iff_active_or_pending 0 (fun v => v)
    ⟨"B", 0, false, [], [5], []⟩ []).2.2.1 (by decide)

/-- C5: `SendMessage` resolution order — local destination: enqueue and
return the enqueue result (nil for the in-memory queue); else a
registered relayer's result is returned as-is whenever it is not the
destination-is-local sentinel (a nil relayer result included); else —
no relayer, or the relayer answered with the sentinel — an error
wrapping invalid-message-destination is returned; and the sentinel
itself never reaches the caller. -/
theorem sendMessage_resolution_order (g : BspGraph U A) (dstID : String)
    (msg : U) :
    (∀ dv, g.vertices.lookup dstID = some dv →
      (g.sendMessage dstID msg).2 = none) ∧
    (g.vertices.lookup dstID = none →
      ∀ relay, g.relayer = some relay →
        optErrIs (relay dstID msg) GoErr.destinationIsLocal = false →
        g.sendMessage dstID msg = (g, relay dstID msg)) ∧
    (g.vertices.lookup dstID = none →
      ∀ relay, g.relayer = some relay →
        optErrIs (relay dstID msg) GoErr.destinationIsLocal = true →
        g.sendMessage dstID msg
          = (g, some (GoErr.errorf ("message cannot be delivered to " ++ dstID)
              GoErr.invalidMessageDestination))) ∧
    (g.vertices.lookup dstID = none → g.relayer = none →
      g.sendMessage dstID msg
        = (g, some (GoErr.errorf ("message cannot be delivered to " ++ dstID)
            GoErr.invalidMessageDestination))) ∧
    optErrIs (g.sendMessage dstID msg).2 GoErr.destinationIsLocal = false := by
  refine ⟨?_, ?_, ?_, ?_, ?_⟩
  · intro dv h
    simp [BspGraph.sendMessage, h]
  · intro hl relay hr hfalse
    simp [BspGraph.sendMessage, hl, hr, hfalse]
  · intro hl relay hr htrue
    simp [BspGraph.sendMessage, hl, hr, htrue]
  · intro hl hr
    simp [BspGraph.sendMessage, hl, hr]
  · cases hl : g.vertices.lookup dstID with
    | some dv => simp [BspGraph.sendMessage, hl, optErrIs]
    | none =>
        cases hr : g.relayer with
        | none => simp [BspGraph.sendMessage, hl, hr, optErrIs, GoErr.isErr]
        | some relay =>
            cases hopt : optErrIs (relay dstID msg) GoErr.destinationIsLocal with
            | false => simp [BspGraph.sendMessage, hl, hr, hopt]
            | true =>
                simp only [BspGraph.sendMessage, hl, hr, hopt]
                simp [optErrIs, GoErr.isErr]

/-- Relayer for the C5 witness: declines every destination with the
destination-is-local sentinel (wrapped, as `xerrors.Is` unwraps). -/
def relayC5 : String → Nat → Option GoErr :=
  fun _ _ => some (GoErr.errorf ("relay") GoErr.destinationIsLocal)

/-- Vertex-less graph wired to `relayC5` for the C5 witness. -/
def gC5 : BspGraph Nat Nat :=
  { superstep := 0, vertices := [], aggregators := [], relayer := some relayC5 }

/-- C5 witness: with no local vertex and a relayer declining with the
sentinel, `SendMessage` reports invalid-message-destination and never
surfaces the sentinel. -/
theorem sendMessage_resolution_order_witness :
    gC5.sendMessage ("remote") 7
      = (gC5, some (GoErr.errorf ("message cannot be delivered to " ++ ("remote"))
          GoErr.invalidMessageDestination)) ∧
    optErrIs (gC5.sendMessage ("remote") 7).2 GoErr.destinationIsLocal = false :=
  ⟨(sendMessage_resolution_order gC5 ("remote") 7).2.2.1 (by decide) relayC5 rfl
      (by decide),
   (sendMessage_resolution_order gC5 ("remote") 7).2.2.2.2⟩

theorem memIterator_collect_from (l : List α) (fuel : Nat) :
    ∀ i, l.length - 1 - i ≤ fuel →
      MemIterator.collect ⟨l, i⟩ fuel
        = ((l.take (l.length - 1)).drop i, l.length - 1 - i) := by
  induction fuel with
  | zero =>
      intro i h
      have h0 : l.length - 1 - i = 0 := Nat.le_zero.mp h
      have hdrop : (l.take (l.length - 1)).drop i = [] := by
        apply List.drop_eq_nil_of_le
        rw [List.length_take]
        omega
      simp [MemIterator.collect, hdrop, h0]
  | succ fuel ih =>
      intro i h
      by_cases hlt : (i : Int) < (l.length : Int) - 1
      · have hil : i < l.length := by omega
        have hnext : (MemIterator.next (⟨l, i⟩ : MemIterator α))
            = (true, ⟨l, i + 1⟩) := by
          simp [MemIterator.next, hlt]
        have hitem : (MemIterator.item (⟨l, i + 1⟩ : MemIterator α))
            = some (l.get ⟨i, hil⟩) := by
          simp [MemIterator.item, List.get?_eq_getElem?, List.getElem?_eq_getElem hil]
        have hrest := ih (i + 1) (by omega)
        simp only [MemIterator.collect, hnext, hitem, hrest]
        have hlen : i < (l.take (l.length - 1)).length := by
          rw [List.length_take]
          omega
        rw [List.drop_eq_getElem_cons hlen]
        rw [if_pos trivial]
        simp only [Prod.mk.injEq, List.cons.injEq]
        refine ⟨⟨?_, trivial⟩, by omega⟩
        rw [List.getElem_take]
        rfl
      · have hnext : (MemIterator.next (⟨l, i⟩ : MemIterator α))
            = (false, ⟨l, i⟩) := by
          simp [MemIterator.next, hlt]
        have h0 : l.length - 1 - i = 0 := by omega
        have hdrop : (l.take (l.length - 1)).drop i = [] := by
          apply List.drop_eq_nil_of_le
          rw [List.length_take]
          omega
        simp [MemIterator.collect, hnext, hdrop, h0]

/-- C9: driven from index 0 over a backing list of n elements, the
in-memory store's link/edge iterator answers `Next() = true` exactly
`max(n-1, 0)` times and yields the elements at indices 0 through n-2 —
the final element is never returned. -/
theorem memIterator_skips_last (l : List α) (fuel : Nat)
    (h : l.length ≤ fuel) :
    MemIterator.collect ⟨l, 0⟩ fuel = (l.dropLast, l.length - 1) := by
  rw [memIterator_collect_from l fuel 0 (by omega)]
  simp [List.dropLast_eq_take]

/-- C9 witness: over `["a", "b", "c"]` the iterator yields only
`["a", "b"]`, with two successful `Next` calls. -/
theorem memIterator_skips_last_witness :
    MemIterator.collect ⟨["a", "b", "c"], 0⟩ 3 = (["a", "b"], 2) :=
  memIterator_skips_last (["a", "b", "c"]) 3 (by decide)

theorem broadcastDispatchAux_length (i p : Nat) :
    ∀ fresh, (broadcastDispatchAux i p fresh).length = i + 1 := by
  induction i with
  | zero => intro fresh; rfl
  | succ k ih => intro fresh; simp [broadcastDispatchAux, ih]

theorem broadcastDispatchAux_map_snd (i p : Nat) :
    ∀ fresh, (broadcastDispatchAux i p fresh).map Prod.snd
      = List.range' fresh i ++ [p] := by
  induction i with
  | zero => intro fresh; rfl
  | succ k ih =>
      intro fresh
      simp [broadcastDispatchAux, ih, List.range'_succ]

theorem broadcastDispatchAux_map_fst (i p : Nat) :
    ∀ fresh, (broadcastDispatchAux i p fresh).map Prod.fst
      = (List.range (i + 1)).reverse := by
  induction i with
  | zero => intro fresh; rfl
  | succ k ih =>
      intro fresh
      simp [broadcastDispatchAux, ih, List.range_succ]

theorem broadcastDispatchAux_lookup_zero (i p : Nat) :
    ∀ fresh, (broadcastDispatchAux i p fresh).lookup 0 = some p := by
  induction i with
  | zero => intro fresh; rfl
  | succ k ih =>
      intro fresh
      simp [broadcastDispatchAux, List.lookup_cons, ih]

theorem broadcastDispatchAux_clone_count (i p : Nat) :
    ∀ fresh, ((broadcastDispatchAux i p fresh).filter
      (fun e => e.1 != 0)).length = i := by
  induction i with
  | zero => intro fresh; rfl
  | succ k ih =>
      intro fresh
      simp [broadcastDispatchAux, List.filter_cons, ih]

/-- C6: the `broadcast.Run` dispatch loop over K inner FIFOs sends each
input payload K times — FIFO 0 receives the original payload object,
every other FIFO receives the result of one of exactly K-1 `Clone()`
calls — and no two of the K dispatched payloads share an identity
(`fresh` being an identity larger than any yet in use, in particular
larger than the original's). -/
theorem broadcast_clones_and_distinct (k p fresh : Nat) (hk : 1 ≤ k)
    (hfresh : p < fresh) :
    (broadcastDispatch k p fresh).length = k ∧
    (broadcastDispatch k p fresh).lookup 0 = some p ∧
    ((broadcastDispatch k p fresh).filter (fun e => e.1 != 0)).length = k - 1 ∧
    ((broadcastDispatch k p fresh).map Prod.snd).Nodup ∧
    (broadcastDispatch k p fresh).map Prod.fst = (List.range k).reverse := by
  obtain ⟨j, rfl⟩ : ∃ j, k = j + 1 := ⟨k - 1, by omega⟩
  have hd : broadcastDispatch (j + 1) p fresh = broadcastDispatchAux j p fresh := by
    simp [broadcastDispatch]
  rw [hd]
  refine ⟨broadcastDispatchAux_length j p fresh,
    broadcastDispatchAux_lookup_zero j p fresh, ?_,
    ?_, broadcastDispatchAux_map_fst j p fresh⟩
  · have := broadcastDispatchAux_clone_count j p fresh
    omega
  · rw [broadcastDispatchAux_map_snd]
    apply List.Nodup.append (List.nodup_range' fresh j) (List.nodup_singleton p)
    intro a ha hb
    rw [List.mem_singleton] at hb
    subst hb
    rw [List.mem_range'_1] at ha
    omega

/-- C6 witness: broadcasting one payload (identity 0) over three FIFOs
dispatches three payloads with pairwise distinct identities, the
original going to FIFO 0, after exactly two clone calls. -/
theorem broadcast_clones_and_distinct_witness :
    (broadcastDispatch 3 0 1).length = 3 ∧
    (broadcastDispatch 3 0 1).lookup 0 = some 0 ∧
    ((broadcastDispatch 3 0 1).filter (fun e => e.1 != 0)).length = 2 ∧
    ((broadcastDispatch 3 0 1).map Prod.snd).Nodup ∧
    (broadcastDispatch 3 0 1).map Prod.fst = (List.range 3).reverse :=
  broadcast_clones_and_distinct 3 0 1 (by decide) (by decide)

theorem execRun_succ_some (env : ExecEnv) (s k : Nat) (r : Option GoErr)
    (h : iterOutcome env s = some r) :
    (execRun env s (k + 1)).1 = s ∧ (execRun env s (k + 1)).2.1 = r ∧
    (execRun env s (k + 1)).2.2 ≤ 1 := by
  by_cases hc : env.ctxDone s
  · simp only [iterOutcome, hc, if_true, Option.some.injEq] at h
    subst h
    simp [execRun, hc]
  · cases hp : env.preStep s with
    | some e =>
        simp only [iterOutcome, hc, hp, Bool.false_eq_true, if_false,
          Option.some.injEq] at h
        subst h
        simp [execRun, hc, hp]
    | none =>
        cases hs : env.stepErr s with
        | some e =>
            simp only [iterOutcome, hc, hp, hs, Bool.false_eq_true, if_false,
              Option.some.injEq] at h
            subst h
            simp [execRun, hc, hp, hs]
        | none =>
            cases hpo : env.postStep s (env.stepActive s) with
            | some e =>
                simp only [iterOutcome, hc, hp, hs, hpo, Bool.false_eq_true,
                  if_false, Option.some.injEq] at h
                subst h
                simp [execRun, hc, hp, hs, hpo]
            | none =>
                rcases hkr : env.keepRunning s (env.stepActive s) with ⟨keep, ke⟩
                cases ke with
                | some e =>
                    simp only [iterOutcome, hc, hp, hs, hpo, hkr,
                      Bool.false_eq_true, if_false, Option.some.injEq] at h
                    subst h
                    simp [execRun, hc, hp, hs, hpo, hkr]
                | none =>
                    cases keep with
                    | false =>
                        simp only [iterOutcome, hc, hp, hs, hpo, hkr,
                          Bool.false_eq_true, if_false, Option.some.injEq] at h
                        subst h
                        simp [execRun, hc, hp, hs, hpo, hkr]
                    | true =>
                        simp [iterOutcome, hc, hp, hs, hpo, hkr] at h

theorem execRun_succ_none (env : ExecEnv) (s k : Nat)
    (h : iterOutcome env s = none) :
    execRun env s (k + 1)
      = ((execRun env (s + 1) k).1, (execRun env (s + 1) k).2.1,
         (execRun env (s + 1) k).2.2 + 1) := by
  by_cases hc : env.ctxDone s
  · simp [iterOutcome, hc] at h
  · cases hp : env.preStep s with
    | some e => simp [iterOutcome, hc, hp] at h
    | none =>
        cases hs : env.stepErr s with
        | some e => simp [iterOutcome, hc, hp, hs] at h
        | none =>
            cases hpo : env.postStep s (env.stepActive s) with
            | some e => simp [iterOutcome, hc, hp, hs, hpo] at h
            | none =>
                rcases hkr : env.keepRunning s (env.stepActive s) with ⟨keep, ke⟩
                cases ke with
                | some e => simp [iterOutcome, hc, hp, hs, hpo, hkr] at h
                | none =>
                    cases keep with
                    | false => simp [iterOutcome, hc, hp, hs, hpo, hkr] at h
                    | true => simp [execRun, hc, hp, hs, hpo, hkr]

/-- C7: `RunSteps(ctx, n)` performs at most n supersteps (at most n
`g.step()` calls, superstep counter advanced by at most n, by exactly one
per completed iteration), and the loop stops at the first superstep whose
checks — context expired, PreStep error, `g.step` error, PostStep error,
PostStepKeepRunning error, or PostStepKeepRunning returning false, in
that order — fire, returning that check's error (nil in the
keep-running-false case); if no check ever fires, all n iterations
complete and nil is returned. -/
theorem runSteps_stops_at_first_terminal (env : ExecEnv) (s0 n : Nat) :
    ((execRun env s0 n).1 ≤ s0 + n ∧ (execRun env s0 n).2.2 ≤ n) ∧
    (∀ k r, k < n → (∀ j, j < k → iterOutcome env (s0 + j) = none) →
      iterOutcome env (s0 + k) = some r →
      (execRun env s0 n).1 = s0 + k ∧ (execRun env s0 n).2.1 = r) ∧
    ((∀ j, j < n → iterOutcome env (s0 + j) = none) →
      execRun env s0 n = (s0 + n, none, n)) := by
  induction n generalizing s0 with
  | zero =>
      refine ⟨⟨by simp [execRun], by simp [execRun]⟩, ?_, ?_⟩
      · intro k r hk _ _
        exact absurd hk (Nat.not_lt_zero k)
      · intro _
        simp [execRun]
  | succ n ih =>
      cases hio : iterOutcome env s0 with
      | some r0 =>
          obtain ⟨h1, h2, h3⟩ := execRun_succ_some env s0 n r0 hio
          refine ⟨⟨by omega, by omega⟩, ?_, ?_⟩
          · intro k r hk hprev hout
            cases k with
            | zero =>
                rw [Nat.add_zero, hio] at hout
                cases hout
                refine ⟨by rw [h1, Nat.add_zero], h2⟩
            | succ j =>
                have h0 := hprev 0 (Nat.succ_pos j)
                rw [Nat.add_zero, hio] at h0
                simp at h0
          · intro hall
            have h0 := hall 0 (Nat.succ_pos n)
            rw [Nat.add_zero, hio] at h0
            simp at h0
      | none =>
          have hsucc := execRun_succ_none env s0 n hio
          obtain ⟨⟨b1, b2⟩, p2, p3⟩ := ih (s0 + 1)
          refine ⟨⟨?_, ?_⟩, ?_, ?_⟩
          · rw [hsucc]
            show (execRun env (s0 + 1) n).1 ≤ s0 + (n + 1)
            omega
          · rw [hsucc]
            show (execRun env (s0 + 1) n).2.2 + 1 ≤ n + 1
            omega
          · intro k r hk hprev hout
            cases k with
            | zero =>
                rw [Nat.add_zero, hio] at hout
                simp at hout
            | succ j =>
                have hj : j < n := by omega
                have hprev' : ∀ i, i < j → iterOutcome env (s0 + 1 + i) = none := by
                  intro i hi
                  have hpi := hprev (i + 1) (by omega)
                  rw [show s0 + (i + 1) = s0 + 1 + i by omega] at hpi
                  exact hpi
                have hout' : iterOutcome env (s0 + 1 + j) = some r := by
                  rw [show s0 + 1 + j = s0 + (j + 1) by omega]
                  exact hout
                obtain ⟨q1, q2⟩ := p2 j r hj hprev' hout'
                constructor
                · rw [hsucc]
                  show (execRun env (s0 + 1) n).1 = s0 + (j + 1)
                  omega
                · rw [hsucc]
                  exact q2
          · intro hall
            have hall' : ∀ j, j < n → iterOutcome env (s0 + 1 + j) = none := by
              intro j hj
              have hpj := hall (j + 1) (by omega)
              rw [show s0 + (j + 1) = s0 + 1 + j by omega] at hpj
              exact hpj
            rw [hsucc, p3 hall']
            have harith : s0 + 1 + n = s0 + (n + 1) := by omega
            simp [harith]

/-- Environment for the C7 witness: nothing fires except a `PreStep`
error at superstep 2. -/
def envC7 : ExecEnv :=
  { ctxDone := fun _ => false,
    ctxErr := GoErr.named ("context canceled"),
    preStep := fun s => if s = 2 then some (GoErr.named ("pre")) else none,
    stepActive := fun _ => 1,
    stepErr := fun _ => none,
    postStep := fun _ _ => none,
    keepRunning := fun _ _ => (true, none) }

/-- C7 witness: `RunSteps(ctx, 5)` stops at superstep 2 where `PreStep`
fails, returning that error. -/
theorem runSteps_stops_at_first_terminal_witness :
    (execRun envC7 0 5).1 = 0 + 2 ∧
    (execRun envC7 0 5).2.1 = some (GoErr.named ("pre")) :=
  (runSteps_stops_at_first_terminal envC7 0 5).2.1 2 (some (GoErr.named ("pre")))
    (by decide) (by decide) (by decide)

theorem runStages_id_or_discard (procs : List (Nat → ProcRes))
    (hproc : ∀ proc ∈ procs, ∀ p,
      proc p = ProcRes.discard ∨ proc p = ProcRes.fwd p) :
    ∀ p, runStages procs p = StageOut.reached p ∨
      runStages procs p = StageOut.discarded p := by
  induction procs with
  | nil => intro p; exact Or.inl rfl
  | cons proc rest ih =>
      intro p
      rcases hproc proc (List.mem_cons_self proc rest) p with hd | hf
      · right
        simp [runStages, hd]
      · have hrest := ih (fun q hq => hproc q (List.mem_cons_of_mem proc hq)) p
        simpa [runStages, hf] using hrest

/-- C1 counterexample: two runs in which a payload enters the pipeline
(it is in the first component, the payloads sent into stage channel 0)
yet receives zero mark-as-processed calls (the second component, the
mark calls made, does not contain it): a sink whose `Consume` fails, and
a stage whose processor forwards a freshly created payload object in
place of its input. -/
theorem pipeline_mark_missed_counterexample :
    ((pipelineRun [] (fun _ => false) [0]).1 = [0] ∧
      (pipelineRun [] (fun _ => false) [0]).2.count 0 = 0) ∧
    ((pipelineRun [fun p => ProcRes.fwd (p + 1)] (fun _ => true) [0]).1 = [0] ∧
      (pipelineRun [fun p => ProcRes.fwd (p + 1)] (fun _ => true) [0]).2.count 0
        = 0) := by
  decide

/-- C1 (amended): in a run of `Pipeline.Process` in which every sink
consume succeeds and every stage processor either discards its input or
forwards that same payload object (no processor errors, no fresh output
objects), every payload entering the pipeline receives exactly one
mark-as-processed call — by the sink worker after its consume, or by the
stage runner that discards it: the list of mark calls equals the list of
entering payloads. -/
theorem pipeline_marks_each_entered_once (procs : List (Nat → ProcRes))
    (sinkOk : Nat → Bool) (ps : List Nat)
    (hproc : ∀ proc ∈ procs, ∀ p,
      proc p = ProcRes.discard ∨ proc p = ProcRes.fwd p)
    (hsink : ∀ q, sinkOk q = true) :
    pipelineRun procs sinkOk ps = (ps, ps) := by
  induction ps with
  | nil => rfl
  | cons p rest ih =>
      rcases runStages_id_or_discard procs hproc p with hr | hr
      · simp [pipelineRun, hr, hsink p, ih]
      · simp [pipelineRun, hr, ih]

/-- C1 witness: a single always-discarding stage marks the one entering
payload exactly once. -/
theorem pipeline_marks_each_entered_once_witness :
    pipelineRun [fun _ => ProcRes.discard] (fun _ => true) [5] = ([5], [5]) :=
  pipeline_marks_each_entered_once [fun _ => ProcRes.discard] (fun _ => true) [5]
    (by
      intro proc hp p
      rw [List.mem_singleton] at hp
      subst hp
      exact Or.inl rfl)
    (fun _ => rfl)
